import Mathlib

/-!
Shallow embedding of the ray tracer in `src/rayTracing.js`, together with
theorems checking the natural-language specification against it.

Modelling conventions:
* JavaScript IEEE-754 numbers are modelled as real numbers (`ℝ`);
  `Math.sqrt`, `Math.acos`, `Math.atan2`, `Math.pow`, `Math.min`, `Math.max`
  become `Real.sqrt`, `Real.arccos`, a case-defined `atan2`, `· ^ ·`,
  `min`, `max`.
* The `t = Infinity` initial best-candidate of `traceRay` is modelled by an
  `Option`-valued accumulator: `none` means "no candidate yet", and every
  real number compares below `Infinity`, which is the predicate `beatsBest`.
* The JS miss object `{t: -1}` (which carries no `sphereIndex`/`normal`
  fields) is modelled as a `CastResult` with `t = -1` and inert junk values
  for the remaining fields; the shader only reads them after checking
  `t < 0`, mirroring the source.
* `spheres[castResult.sphereIndex]` is modelled with `List.getD` and a
  default sphere; the default is never used (see the trace well-formedness
  theorem).
* The canvas interaction in `render` (reading `canvas.width`/`height`,
  `ctx.fillRect`) is the out-of-scope collaborator; `render` is modelled as
  the list of delivered `(x, y, (r, g, b))` triples, in row-major order,
  with integer width/height inputs so that non-positive dimensions are
  representable.
-/

noncomputable section

open Classical

/-- 3D vector of real components, mirroring `class Vec3`. -/
structure Vec3 where
  x : ℝ
  y : ℝ
  z : ℝ

/-- `Vec3.scale`, from `scale(scalar)`. -/
def Vec3.scale (v : Vec3) (scalar : ℝ) : Vec3 :=
  Vec3.mk (v.x * scalar) (v.y * scalar) (v.z * scalar)

/-- `Vec3.dot`, from `dot(other)`. -/
def Vec3.dot (v other : Vec3) : ℝ :=
  v.x * other.x + v.y * other.y + v.z * other.z

/-- `Vec3.normalised`, from `normalised()`; division by a zero length is
total in `ℝ` (the JS version silently produces NaN there instead). -/
def Vec3.normalised (v : Vec3) : Vec3 :=
  let length := Real.sqrt (v.x ^ 2 + v.y ^ 2 + v.z ^ 2)
  Vec3.mk (v.x / length) (v.y / length) (v.z / length)

/-- `Vec3.subtract`, from `subtract(other)`. -/
def Vec3.subtract (v other : Vec3) : Vec3 :=
  Vec3.mk (v.x - other.x) (v.y - other.y) (v.z - other.z)

/-- `Vec3.add`, from `add(other)`. -/
def Vec3.add (v other : Vec3) : Vec3 :=
  Vec3.mk (v.x + other.x) (v.y + other.y) (v.z + other.z)

/-- Ray with origin and direction, mirroring `class Ray`. -/
structure Ray where
  origin : Vec3
  direction : Vec3

/-- `Ray.pointAt`, from `pointAt(t)`. -/
def Ray.pointAt (r : Ray) (t : ℝ) : Vec3 :=
  Vec3.mk (r.origin.x + t * r.direction.x) (r.origin.y + t * r.direction.y)
    (r.origin.z + t * r.direction.z)

/-- Sphere with center, radius and albedo color, mirroring `class Sphere`. -/
structure Sphere where
  center : Vec3
  radius : ℝ
  color : Vec3

/-- Local `a` of `Sphere.rayIntersects`: `ray.direction.dot(ray.direction)`. -/
def Sphere.quadA (_s : Sphere) (ray : Ray) : ℝ :=
  ray.direction.dot ray.direction

/-- Local `b` of `Sphere.rayIntersects`: `2.0 * oc.dot(ray.direction)`. -/
def Sphere.quadB (s : Sphere) (ray : Ray) : ℝ :=
  2 * (ray.origin.subtract s.center).dot ray.direction

/-- Local `c` of `Sphere.rayIntersects`: `oc.dot(oc) - radius * radius`. -/
def Sphere.quadC (s : Sphere) (ray : Ray) : ℝ :=
  (ray.origin.subtract s.center).dot (ray.origin.subtract s.center) -
    s.radius * s.radius

/-- Local `discriminant` of `Sphere.rayIntersects`: `b*b - 4.0*a*c`. -/
def Sphere.quadDisc (s : Sphere) (ray : Ray) : ℝ :=
  s.quadB ray * s.quadB ray - 4 * s.quadA ray * s.quadC ray

/-- `Sphere.rayIntersects(ray)`: if the discriminant is positive, return
`Math.min(t1, t2)` of the two quadratic roots, else the sentinel `-1`. -/
def Sphere.rayIntersects (s : Sphere) (ray : Ray) : ℝ :=
  if 0 < s.quadDisc ray then
    min ((-s.quadB ray - Real.sqrt (s.quadDisc ray)) / (2 * s.quadA ray))
      ((-s.quadB ray + Real.sqrt (s.quadDisc ray)) / (2 * s.quadA ray))
  else -1

/-- The fixed scene: the `spheres` array literal of the source. -/
def spheres : List Sphere :=
  [Sphere.mk (Vec3.mk 0 0.3 (-3.5)) 1 (Vec3.mk 1 0 0),
   Sphere.mk (Vec3.mk 0 1 (-2.8)) 0.5 (Vec3.mk 0 0 1),
   Sphere.mk (Vec3.mk 0 (-14) (-5)) 13 (Vec3.mk (58 / 255) (240 / 255) (46 / 255))]

/-- Default sphere backing the total model of the JS indexing
`spheres[castResult.sphereIndex]`; never reached on in-bounds indices. -/
def defaultSphere : Sphere :=
  Sphere.mk (Vec3.mk 0 0 0) 0 (Vec3.mk 0 0 0)

/-- `lightDirection`: `new Vec3(-1.1, -1.3, -1.5).normalised()`. -/
def lightDirection : Vec3 :=
  (Vec3.mk (-1.1) (-1.3) (-1.5)).normalised

/-- `negLightDirection`: componentwise negation of `lightDirection`. -/
def negLightDirection : Vec3 :=
  Vec3.mk (-lightDirection.x) (-lightDirection.y) (-lightDirection.z)

/-- `Math.atan2(y, x)` modelled by cases, as in the usual real definition.
It feeds only the unused `phi`/`u` locals of `backgroundColour`. -/
def atan2 (y x : ℝ) : ℝ :=
  if 0 < x then Real.arctan (y / x)
  else if x < 0 then
    if 0 ≤ y then Real.arctan (y / x) + Real.pi
    else Real.arctan (y / x) - Real.pi
  else
    if 0 < y then Real.pi / 2
    else if y < 0 then -(Real.pi / 2)
    else 0

/-- `backgroundColour(ray)`: vertical sky/ground gradient; `phi` and `u`
are computed but unused, exactly as in the source. -/
def backgroundColour (ray : Ray) : Vec3 :=
  let dir := ray.direction.normalised
  let phi := atan2 dir.x dir.z
  let theta := Real.arccos dir.y
  let u := (phi + Real.pi) / (2 * Real.pi)
  let v := theta / Real.pi
  let skyColor := Vec3.mk 0.5 0.9 1.0
  let groundColor := Vec3.mk 0.3 0.3 0.5
  (skyColor.scale (1 - v)).add (groundColor.scale v)

/-- `diffuseLighting(normal)`. -/
def diffuseLighting (normal : Vec3) : ℝ :=
  max (normal.dot negLightDirection) 0

/-- `specularLighting(normal, viewDirection)`. -/
def specularLighting (normal viewDirection : Vec3) : ℝ :=
  let reflection :=
    (normal.scale (2 * normal.dot lightDirection)).subtract lightDirection
  let specular := max (reflection.dot viewDirection) 0
  specular ^ 7 * 0.8

/-- Result of `traceRay`: `{t, sphereIndex, normal}`. -/
structure CastResult where
  t : ℝ
  sphereIndex : ℕ
  normal : Vec3

/-- The loop guard's comparison against the best candidate so far;
`none` models the initial `t = Infinity`, which every real beats. -/
def beatsBest (tIntersection : ℝ) : Option CastResult → Prop
  | none => True
  | some best => tIntersection < best.t

/-- The `for` loop of `traceRay`, over the remaining spheres, carrying the
running index and best candidate (`none` models `t = Infinity`). -/
def traceLoop (ray : Ray) : List Sphere → ℕ → Option CastResult → Option CastResult
  | [], _, best => best
  | sphere :: rest, i, best =>
    let tIntersection := sphere.rayIntersects ray
    if 0 < tIntersection ∧ beatsBest tIntersection best then
      traceLoop ray rest (i + 1)
        (some (CastResult.mk tIntersection i
          ((ray.pointAt tIntersection).subtract sphere.center).normalised))
    else
      traceLoop ray rest (i + 1) best

/-- `traceRay(ray)`: run the loop over the scene; on no candidate return the
miss record `{t: -1}` (junk index/normal model the absent JS fields). -/
def traceRay (ray : Ray) : CastResult :=
  match traceLoop ray spheres 0 none with
  | none => CastResult.mk (-1) 0 (Vec3.mk 0 0 0)
  | some best => best

/-- `rayColor(ray)`: background on miss; otherwise diffuse + specular,
then shadow attenuation, then the index-2 brightness boost. -/
def rayColor (ray : Ray) : Vec3 :=
  let castResult := traceRay ray
  if castResult.t < 0 then backgroundColour ray
  else
    let albedo := (spheres.getD castResult.sphereIndex defaultSphere).color
    let diffuse := diffuseLighting castResult.normal
    let color0 := albedo.scale diffuse
    let viewDirection := (ray.origin.subtract (ray.pointAt castResult.t)).normalised
    let specular := specularLighting castResult.normal viewDirection
    let color1 := color0.add (albedo.scale specular)
    let shadowRay :=
      Ray.mk ((ray.pointAt castResult.t).add (castResult.normal.scale 0.01))
        negLightDirection
    let shadowCastResult := traceRay shadowRay
    let color2 := if 0 < shadowCastResult.t then color1.scale 0.4 else color1
    if castResult.sphereIndex = 2 then color2.scale 1.2 else color2

/-- Modelled from the spec (section 4.5, hit branch): the shading pipeline
written out in the spec's own words — diffuse term scaled against the
albedo, specular term (reflect, clamp, 7th power, 0.8, times albedo),
shadow attenuation by 0.4, then the index-2 boost by 1.2 — used as the
comparison point for the shader refinement claims. -/
def specShadedColor (ray : Ray) : Vec3 :=
  let castResult := traceRay ray
  let albedo := (spheres.getD castResult.sphereIndex defaultSphere).color
  let diffuse := max (castResult.normal.dot negLightDirection) 0
  let viewDirection := (ray.origin.subtract (ray.pointAt castResult.t)).normalised
  let reflection :=
    (castResult.normal.scale (2 * castResult.normal.dot lightDirection)).subtract
      lightDirection
  let specular := max (reflection.dot viewDirection) 0 ^ 7 * 0.8
  let base := (albedo.scale diffuse).add (albedo.scale specular)
  let shadowRay :=
    Ray.mk ((ray.pointAt castResult.t).add (castResult.normal.scale 0.01))
      negLightDirection
  let afterShadow :=
    if 0 < (traceRay shadowRay).t then base.scale 0.4 else base
  if castResult.sphereIndex = 2 then afterShadow.scale 1.2 else afterShadow

/-- `viewportWidth` of `render`. -/
def viewportWidth : ℝ := 2

/-- `viewportHeight` of `render`. -/
def viewportHeight : ℝ := 2

/-- `focalLength` of `render`. -/
def focalLength : ℝ := 1

/-- Camera ray for pixel `(x, y)` of a `W × H` frame, as built inside the
`render` loop body: fixed origin `(0,0,0)` and normalised direction
`(u, -v, -focalLength)`. -/
def cameraRay (W H : ℤ) (x y : ℕ) : Ray :=
  let u := ((x : ℝ) / (W : ℝ)) * viewportWidth - viewportWidth / 2
  let v := ((y : ℝ) / (H : ℝ)) * viewportHeight - viewportHeight / 2
  Ray.mk (Vec3.mk 0 0 0) ((Vec3.mk u (-v) (-focalLength)).normalised)

/-- Per-pixel output of `render`: each channel is the shader channel
clamped to `[0,1]` and scaled by `255`, exactly as in the loop body. -/
def renderPixel (W H : ℤ) (x y : ℕ) : ℝ × ℝ × ℝ :=
  let color := rayColor (cameraRay W H x y)
  (min 1 (max 0 color.x) * 255, min 1 (max 0 color.y) * 255,
    min 1 (max 0 color.z) * 255)

/-- The double pixel loop of `render`, as the row-major list of delivered
`(x, y, rgb)` triples; a non-positive width or height yields no
iterations, like the JS `for` loops. -/
def render (W H : ℤ) : List (ℕ × ℕ × (ℝ × ℝ × ℝ)) :=
  (List.range H.toNat).flatMap fun y =>
    (List.range W.toNat).map fun x => (x, y, renderPixel W H x y)

/-- The intersection value the loop reads for scene position `k`. -/
def tAt (ray : Ray) (l : List Sphere) (k : ℕ) : ℝ :=
  (l.getD k defaultSphere).rayIntersects ray

/-- Probe ray used in concrete witnesses: origin, straight down the axis. -/
def probeRayAxis : Ray :=
  Ray.mk (Vec3.mk 0 0 0) (Vec3.mk 0 0 (-1))

/-- Probe ray used in concrete witnesses: origin, straight up. -/
def probeRayUp : Ray :=
  Ray.mk (Vec3.mk 0 0 0) (Vec3.mk 0 1 0)

/-- Probe sphere used in concrete witnesses, at distance 3 down the axis. -/
def probeSphere : Sphere :=
  Sphere.mk (Vec3.mk 0 0 (-3)) 1 (Vec3.mk 1 0 0)

/-- The already-unit diagonal direction of pixel (0,1) in a 1×2 frame. -/
def probeRayDiag : Ray :=
  Ray.mk (Vec3.mk 0 0 0)
    (Vec3.mk (-(1 / Real.sqrt 2)) 0 (-(1 / Real.sqrt 2)))

/-- A dot product of a vector with itself is a sum of squares. -/
theorem Vec3.dot_self_nonneg (v : Vec3) : 0 ≤ v.dot v := by
  have hx := mul_self_nonneg v.x
  have hy := mul_self_nonneg v.y
  have hz := mul_self_nonneg v.z
  simp only [Vec3.dot]
  linarith

/-- The leading quadratic coefficient is a squared length, hence nonneg. -/
theorem Sphere.quadA_nonneg (s : Sphere) (ray : Ray) : 0 ≤ s.quadA ray :=
  Vec3.dot_self_nonneg ray.direction

/-- A positive discriminant forces a positive leading coefficient: a zero
direction gives `a = 0`, `b = 0` and hence discriminant `0`. -/
theorem Sphere.quadA_pos_of_quadDisc_pos (s : Sphere) (ray : Ray)
    (h : 0 < s.quadDisc ray) : 0 < s.quadA ray := by
  rcases lt_or_eq_of_le (s.quadA_nonneg ray) with hlt | heq
  · exact hlt
  · exfalso
    have hx2 : ray.direction.x * ray.direction.x = 0 := by
      have hy := mul_self_nonneg ray.direction.y
      have hz := mul_self_nonneg ray.direction.z
      have hx := mul_self_nonneg ray.direction.x
      have := heq.symm
      simp only [Sphere.quadA, Vec3.dot] at this
      nlinarith
    have hy2 : ray.direction.y * ray.direction.y = 0 := by
      have hz := mul_self_nonneg ray.direction.z
      have hx := mul_self_nonneg ray.direction.x
      have := heq.symm
      simp only [Sphere.quadA, Vec3.dot] at this
      nlinarith
    have hz2 : ray.direction.z * ray.direction.z = 0 := by
      have hy := mul_self_nonneg ray.direction.y
      have hx := mul_self_nonneg ray.direction.x
      have := heq.symm
      simp only [Sphere.quadA, Vec3.dot] at this
      nlinarith
    have hx0 : ray.direction.x = 0 := by nlinarith
    have hy0 : ray.direction.y = 0 := by nlinarith
    have hz0 : ray.direction.z = 0 := by nlinarith
    have hb : s.quadB ray = 0 := by
      simp [Sphere.quadB, Vec3.dot, hx0, hy0, hz0]
    have hd : s.quadDisc ray = 0 := by
      simp [Sphere.quadDisc, hb, ← heq]
    rw [hd] at h
    exact lt_irrefl 0 h

/-- Non-positive discriminant: the intersection routine returns `-1`. -/
theorem Sphere.rayIntersects_of_nonpos (s : Sphere) (ray : Ray)
    (h : s.quadDisc ray ≤ 0) : s.rayIntersects ray = -1 := by
  simp only [Sphere.rayIntersects]
  rw [if_neg (not_lt.2 h)]

/-- Positive discriminant: the routine returns the smaller root
`(-b - sqrt D) / (2a)`, because `a > 0` makes that root the minimum. -/
theorem Sphere.rayIntersects_of_pos (s : Sphere) (ray : Ray)
    (h : 0 < s.quadDisc ray) :
    s.rayIntersects ray =
      (-s.quadB ray - Real.sqrt (s.quadDisc ray)) / (2 * s.quadA ray) := by
  have ha : 0 < s.quadA ray := s.quadA_pos_of_quadDisc_pos ray h
  have h2a : 0 < 2 * s.quadA ray := by linarith
  simp only [Sphere.rayIntersects]
  rw [if_pos h]
  apply min_eq_left
  apply (div_le_div_iff_of_pos_right h2a).2
  have := Real.sqrt_nonneg (s.quadDisc ray)
  linarith

/-- Squared distance from a ray point to the sphere center, written with
the quadratic coefficients of the intersection routine. -/
theorem Sphere.point_dist_sq (s : Sphere) (ray : Ray) (t : ℝ) :
    ((ray.pointAt t).subtract s.center).dot ((ray.pointAt t).subtract s.center) =
      s.quadA ray * (t * t) + s.quadB ray * t +
        (s.quadC ray + s.radius * s.radius) := by
  simp only [Sphere.quadA, Sphere.quadB, Sphere.quadC, Ray.pointAt, Vec3.dot,
    Vec3.subtract]
  ring

/-- Unfolding the trace loop on the empty list. -/
theorem traceLoop_nil (ray : Ray) (i : ℕ) (best : Option CastResult) :
    traceLoop ray [] i best = best := rfl

/-- Unfolding the trace loop when the head sphere wins. -/
theorem traceLoop_cons_pos (ray : Ray) (s : Sphere) (rest : List Sphere)
    (i : ℕ) (best : Option CastResult)
    (h : 0 < s.rayIntersects ray ∧ beatsBest (s.rayIntersects ray) best) :
    traceLoop ray (s :: rest) i best =
      traceLoop ray rest (i + 1)
        (some (CastResult.mk (s.rayIntersects ray) i
          ((ray.pointAt (s.rayIntersects ray)).subtract s.center).normalised)) := by
  simp only [traceLoop]
  rw [if_pos h]

/-- Unfolding the trace loop when the head sphere does not win. -/
theorem traceLoop_cons_neg (ray : Ray) (s : Sphere) (rest : List Sphere)
    (i : ℕ) (best : Option CastResult)
    (h : ¬(0 < s.rayIntersects ray ∧ beatsBest (s.rayIntersects ray) best)) :
    traceLoop ray (s :: rest) i best = traceLoop ray rest (i + 1) best := by
  simp only [traceLoop]
  rw [if_neg h]

/-- An intersection value that loses against the current best lies at or
above any value that beats the best. -/
theorem lt_of_not_beats_of_beats {tLose tWin : ℝ} {best : Option CastResult}
    (hLosePos : 0 < tLose)
    (hLose : ¬(0 < tLose ∧ beatsBest tLose best))
    (hWin : beatsBest tWin best) : tWin < tLose := by
  cases best with
  | none => exact absurd ⟨hLosePos, trivial⟩ hLose
  | some b =>
    have hble : b.t ≤ tLose := by
      by_contra hc
      exact hLose ⟨hLosePos, lt_of_not_le hc⟩
    exact lt_of_lt_of_le hWin hble

/-- Beating a smaller value transfers to beating the best it beats. -/
theorem beatsBest_of_lt {tSmall tBig : ℝ} {best : Option CastResult}
    (h : tSmall < tBig) (hBig : beatsBest tBig best) :
    beatsBest tSmall best := by
  cases best with
  | none => trivial
  | some b => exact lt_trans h hBig

/-- Reading position 0 of a cons scene. -/
theorem tAt_cons_zero (ray : Ray) (s : Sphere) (rest : List Sphere) :
    tAt ray (s :: rest) 0 = s.rayIntersects ray := rfl

/-- Reading a successor position of a cons scene. -/
theorem tAt_cons_succ (ray : Ray) (s : Sphere) (rest : List Sphere) (k : ℕ) :
    tAt ray (s :: rest) (k + 1) = tAt ray rest k := rfl

/-- Full characterisation of the nearest-hit loop: starting from any best
candidate, either no scanned sphere beats it and the best is returned
unchanged, or the loop returns the first sphere attaining the minimal
positive intersection value that beats the initial best, with its index
(offset by the start index) and outward unit normal. -/
theorem traceLoop_char (ray : Ray) (l : List Sphere) :
    ∀ (i : ℕ) (best : Option CastResult),
      (traceLoop ray l i best = best ∧
        ∀ k, k < l.length →
          ¬(0 < tAt ray l k ∧ beatsBest (tAt ray l k) best)) ∨
      (∃ k, k < l.length ∧ 0 < tAt ray l k ∧ beatsBest (tAt ray l k) best ∧
        traceLoop ray l i best =
          some (CastResult.mk (tAt ray l k) (i + k)
            ((ray.pointAt (tAt ray l k)).subtract
              (l.getD k defaultSphere).center).normalised) ∧
        (∀ j, j < l.length → 0 < tAt ray l j → tAt ray l k ≤ tAt ray l j) ∧
        (∀ j, j < l.length → j < k → 0 < tAt ray l j →
          tAt ray l k < tAt ray l j)) := by
  induction l with
  | nil =>
    intro i best
    left
    exact ⟨rfl, fun k hk => absurd hk (Nat.not_lt_zero k)⟩
  | cons s rest ih =>
    intro i best
    by_cases hc : 0 < s.rayIntersects ray ∧ beatsBest (s.rayIntersects ray) best
    · -- the head sphere replaces the best candidate
      have hstep := traceLoop_cons_pos ray s rest i best hc
      set newBest := some (CastResult.mk (s.rayIntersects ray) i
        ((ray.pointAt (s.rayIntersects ray)).subtract s.center).normalised)
        with hnewBest
      rcases ih (i + 1) newBest with ⟨heq, hall⟩ | ⟨k, hk, hpos, hbeats, heq, hmin, hstrict⟩
      · -- nothing in the tail beats the head: the head wins at position 0
        right
        refine ⟨0, Nat.succ_pos _, ?_, ?_, ?_, ?_, ?_⟩
        · rw [tAt_cons_zero]; exact hc.1
        · rw [tAt_cons_zero]; exact hc.2
        · rw [hstep, heq, hnewBest]
          simp [tAt_cons_zero, List.getD]
        · intro j hj hjpos
          cases j with
          | zero => exact le_refl _
          | succ j' =>
            rw [tAt_cons_succ] at hjpos ⊢
            rw [tAt_cons_zero]
            have hj' : j' < rest.length := by
              simpa using Nat.lt_of_succ_lt_succ hj
            by_contra hcon
            push_neg at hcon
            exact hall j' hj' ⟨hjpos, hcon⟩
        · intro j hj hj0 hjpos
          exact absurd hj0 (Nat.not_lt_zero j)
      · -- a tail sphere beats the head: shift its index by one
        right
        refine ⟨k + 1, by simpa using Nat.succ_lt_succ hk, ?_, ?_, ?_, ?_, ?_⟩
        · rw [tAt_cons_succ]; exact hpos
        · rw [tAt_cons_succ]
          have hlt : tAt ray rest k < s.rayIntersects ray := by
            rw [hnewBest] at hbeats
            simpa [beatsBest] using hbeats
          exact beatsBest_of_lt hlt hc.2
        · rw [hstep, heq, tAt_cons_succ]
          have hidx : i + 1 + k = i + (k + 1) := by omega
          rw [hidx]
          rfl
        · intro j hj hjpos
          cases j with
          | zero =>
            rw [tAt_cons_succ, tAt_cons_zero]
            have hlt : tAt ray rest k < s.rayIntersects ray := by
              rw [hnewBest] at hbeats
              simpa [beatsBest] using hbeats
            exact le_of_lt hlt
          | succ j' =>
            rw [tAt_cons_succ, tAt_cons_succ]
            rw [tAt_cons_succ] at hjpos
            have hj' : j' < rest.length := by
              simpa using Nat.lt_of_succ_lt_succ hj
            exact hmin j' hj' hjpos
        · intro j hj hjk hjpos
          cases j with
          | zero =>
            rw [tAt_cons_succ, tAt_cons_zero]
            rw [hnewBest] at hbeats
            simpa [beatsBest] using hbeats
          | succ j' =>
            rw [tAt_cons_succ, tAt_cons_succ]
            rw [tAt_cons_succ] at hjpos
            have hj' : j' < rest.length := by
              simpa using Nat.lt_of_succ_lt_succ hj
            exact hstrict j' hj' (Nat.lt_of_succ_lt_succ hjk) hjpos
    · -- the head sphere does not win; the tail decides
      have hstep := traceLoop_cons_neg ray s rest i best hc
      rcases ih (i + 1) best with ⟨heq, hall⟩ | ⟨k, hk, hpos, hbeats, heq, hmin, hstrict⟩
      · left
        refine ⟨hstep.trans heq, ?_⟩
        intro k hkk
        cases k with
        | zero => rw [tAt_cons_zero]; exact hc
        | succ k' =>
          rw [tAt_cons_succ]
          have hk' : k' < rest.length := by
            simpa using Nat.lt_of_succ_lt_succ hkk
          exact hall k' hk'
      · right
        refine ⟨k + 1, by simpa using Nat.succ_lt_succ hk, ?_, ?_, ?_, ?_, ?_⟩
        · rw [tAt_cons_succ]; exact hpos
        · rw [tAt_cons_succ]; exact hbeats
        · rw [hstep, heq, tAt_cons_succ]
          have hidx : i + 1 + k = i + (k + 1) := by omega
          rw [hidx]
          rfl
        · intro j hj hjpos
          cases j with
          | zero =>
            rw [tAt_cons_succ, tAt_cons_zero]
            rw [tAt_cons_zero] at hjpos
            exact le_of_lt (lt_of_not_beats_of_beats hjpos hc hbeats)
          | succ j' =>
            rw [tAt_cons_succ, tAt_cons_succ]
            rw [tAt_cons_succ] at hjpos
            have hj' : j' < rest.length := by
              simpa using Nat.lt_of_succ_lt_succ hj
            exact hmin j' hj' hjpos
        · intro j hj hjk hjpos
          cases j with
          | zero =>
            rw [tAt_cons_succ, tAt_cons_zero]
            rw [tAt_cons_zero] at hjpos
            exact lt_of_not_beats_of_beats hjpos hc hbeats
          | succ j' =>
            rw [tAt_cons_succ, tAt_cons_succ]
            rw [tAt_cons_succ] at hjpos
            have hj' : j' < rest.length := by
              simpa using Nat.lt_of_succ_lt_succ hj
            exact hstrict j' hj' (Nat.lt_of_succ_lt_succ hjk) hjpos

/-- Characterisation of `traceRay`: a ray either misses every sphere and
gets the `t = -1` record, or gets the minimal positive intersection value,
the first sphere index attaining it, and the outward unit normal there. -/
theorem traceRay_char (ray : Ray) :
    ((∀ k, k < spheres.length → ¬ 0 < tAt ray spheres k) ∧
      traceRay ray = CastResult.mk (-1) 0 (Vec3.mk 0 0 0)) ∨
    (∃ k, k < spheres.length ∧ 0 < tAt ray spheres k ∧
      traceRay ray =
        CastResult.mk (tAt ray spheres k) k
          ((ray.pointAt (tAt ray spheres k)).subtract
            (spheres.getD k defaultSphere).center).normalised ∧
      (∀ j, j < spheres.length → 0 < tAt ray spheres j →
        tAt ray spheres k ≤ tAt ray spheres j) ∧
      (∀ j, j < spheres.length → j < k → 0 < tAt ray spheres j →
        tAt ray spheres k < tAt ray spheres j)) := by
  rcases traceLoop_char ray spheres 0 none with ⟨heq, hall⟩ |
    ⟨k, hk, hpos, _, heq, hmin, hstrict⟩
  · left
    constructor
    · intro k hk
      intro hcon
      exact hall k hk ⟨hcon, trivial⟩
    · simp only [traceRay, heq]
  · right
    refine ⟨k, hk, hpos, ?_, hmin, hstrict⟩
    simp only [traceRay, heq, Nat.zero_add]

/-- The scene has three spheres. -/
theorem spheres_length : spheres.length = 3 := rfl

/-- Axis probe ray against scene sphere 0: positive discriminant `3.64`,
so the near root is returned. -/
theorem probe_axis_sphere0 :
    (Sphere.mk (Vec3.mk 0 0.3 (-3.5)) 1 (Vec3.mk 1 0 0)).rayIntersects probeRayAxis =
      (7 - Real.sqrt 3.64) / 2 := by
  have hd : (Sphere.mk (Vec3.mk 0 0.3 (-3.5)) 1 (Vec3.mk 1 0 0)).quadDisc probeRayAxis
      = 3.64 := by
    norm_num [Sphere.quadDisc, Sphere.quadA, Sphere.quadB, Sphere.quadC,
      Vec3.dot, Vec3.subtract, probeRayAxis]
  rw [Sphere.rayIntersects_of_pos _ _ (by rw [hd]; norm_num), hd]
  have hb : (Sphere.mk (Vec3.mk 0 0.3 (-3.5)) 1 (Vec3.mk 1 0 0)).quadB probeRayAxis
      = -7 := by
    norm_num [Sphere.quadB, Vec3.dot, Vec3.subtract, probeRayAxis]
  have ha : (Sphere.mk (Vec3.mk 0 0.3 (-3.5)) 1 (Vec3.mk 1 0 0)).quadA probeRayAxis
      = 1 := by
    norm_num [Sphere.quadA, Vec3.dot, probeRayAxis]
  rw [hb, ha]
  ring

/-- The near root on the axis probe is positive. -/
theorem probe_axis_t_pos : 0 < (7 - Real.sqrt 3.64) / 2 := by
  have : Real.sqrt 3.64 < 7 := by
    rw [Real.sqrt_lt' (by norm_num)]
    norm_num
  linarith

/-- Axis probe ray against scene sphere 1: negative discriminant. -/
theorem probe_axis_sphere1 :
    (Sphere.mk (Vec3.mk 0 1 (-2.8)) 0.5 (Vec3.mk 0 0 1)).rayIntersects probeRayAxis =
      -1 := by
  apply Sphere.rayIntersects_of_nonpos
  norm_num [Sphere.quadDisc, Sphere.quadA, Sphere.quadB, Sphere.quadC,
    Vec3.dot, Vec3.subtract, probeRayAxis]

/-- Axis probe ray against scene sphere 2: negative discriminant. -/
theorem probe_axis_sphere2 :
    (Sphere.mk (Vec3.mk 0 (-14) (-5)) 13
      (Vec3.mk (58 / 255) (240 / 255) (46 / 255))).rayIntersects probeRayAxis = -1 := by
  apply Sphere.rayIntersects_of_nonpos
  norm_num [Sphere.quadDisc, Sphere.quadA, Sphere.quadB, Sphere.quadC,
    Vec3.dot, Vec3.subtract, probeRayAxis]

/-- Tracing the axis probe hits scene sphere 0 at the near root. -/
theorem traceRay_probe_axis :
    traceRay probeRayAxis =
      CastResult.mk ((7 - Real.sqrt 3.64) / 2) 0
        ((probeRayAxis.pointAt ((7 - Real.sqrt 3.64) / 2)).subtract
          (Vec3.mk 0 0.3 (-3.5))).normalised := by
  have h0 := probe_axis_sphere0
  have h1 := probe_axis_sphere1
  have h2 := probe_axis_sphere2
  have step0 := traceLoop_cons_pos probeRayAxis
    (Sphere.mk (Vec3.mk 0 0.3 (-3.5)) 1 (Vec3.mk 1 0 0))
    [Sphere.mk (Vec3.mk 0 1 (-2.8)) 0.5 (Vec3.mk 0 0 1),
     Sphere.mk (Vec3.mk 0 (-14) (-5)) 13
       (Vec3.mk (58 / 255) (240 / 255) (46 / 255))] 0 none
    (by rw [h0]; exact ⟨probe_axis_t_pos, trivial⟩)
  rw [h0] at step0
  have step1 := traceLoop_cons_neg probeRayAxis
    (Sphere.mk (Vec3.mk 0 1 (-2.8)) 0.5 (Vec3.mk 0 0 1))
    [Sphere.mk (Vec3.mk 0 (-14) (-5)) 13
      (Vec3.mk (58 / 255) (240 / 255) (46 / 255))] 1
    (some (CastResult.mk ((7 - Real.sqrt 3.64) / 2) 0
      ((probeRayAxis.pointAt ((7 - Real.sqrt 3.64) / 2)).subtract
        (Vec3.mk 0 0.3 (-3.5))).normalised))
    (by rw [h1]; intro hcon; linarith [hcon.1])
  have step2 := traceLoop_cons_neg probeRayAxis
    (Sphere.mk (Vec3.mk 0 (-14) (-5)) 13
      (Vec3.mk (58 / 255) (240 / 255) (46 / 255))) [] 2
    (some (CastResult.mk ((7 - Real.sqrt 3.64) / 2) 0
      ((probeRayAxis.pointAt ((7 - Real.sqrt 3.64) / 2)).subtract
        (Vec3.mk 0 0.3 (-3.5))).normalised))
    (by rw [h2]; intro hcon; linarith [hcon.1])
  have hloop : traceLoop probeRayAxis spheres 0 none =
      some (CastResult.mk ((7 - Real.sqrt 3.64) / 2) 0
        ((probeRayAxis.pointAt ((7 - Real.sqrt 3.64) / 2)).subtract
          (Vec3.mk 0 0.3 (-3.5))).normalised) := by
    show traceLoop probeRayAxis
      [Sphere.mk (Vec3.mk 0 0.3 (-3.5)) 1 (Vec3.mk 1 0 0),
       Sphere.mk (Vec3.mk 0 1 (-2.8)) 0.5 (Vec3.mk 0 0 1),
       Sphere.mk (Vec3.mk 0 (-14) (-5)) 13
         (Vec3.mk (58 / 255) (240 / 255) (46 / 255))] 0 none = _
    rw [step0, step1, step2, traceLoop_nil]
  simp only [traceRay, hloop]

/-- Dot product of two scaled vectors pulls the scalars out. -/
theorem Vec3.dot_scale_scale (a b : Vec3) (r t : ℝ) :
    (a.scale r).dot (b.scale t) = a.dot b * (r * t) := by
  simp only [Vec3.dot, Vec3.scale]
  ring

/-- Dot product with a scaled vector pulls the scalar out. -/
theorem Vec3.dot_scale_right (a b : Vec3) (t : ℝ) :
    a.dot (b.scale t) = a.dot b * t := by
  simp only [Vec3.dot, Vec3.scale]
  ring

/-- Dotting a difference with the reversed difference negates it. -/
theorem Vec3.dot_sub_rev (a b : Vec3) :
    (a.subtract b).dot (b.subtract a) = -((a.subtract b).dot (a.subtract b)) := by
  simp only [Vec3.dot, Vec3.subtract]
  ring

/-- Squared length of a difference is symmetric in its arguments. -/
theorem Vec3.sub_dot_symm (a b : Vec3) :
    (b.subtract a).dot (b.subtract a) = (a.subtract b).dot (a.subtract b) := by
  simp only [Vec3.dot, Vec3.subtract]
  ring

/-- C1: for every ray and sphere the intersection routine computes the
quadratic coefficients `a = dot(direction, direction)`,
`b = 2 dot(origin − center, direction)`,
`c = dot(origin − center, origin − center) − radius²` and the discriminant
`D = b² − 4ac`; it returns the sentinel `−1` whenever `D ≤ 0`, and the
smaller root `(−b − √D) / (2a)` whenever `D > 0`, with no sign check on
that root. -/
theorem rayIntersects_quadratic_spec (s : Sphere) (ray : Ray) :
    s.quadA ray = ray.direction.dot ray.direction ∧
    s.quadB ray = 2 * ((ray.origin.subtract s.center).dot ray.direction) ∧
    s.quadC ray =
      (ray.origin.subtract s.center).dot (ray.origin.subtract s.center) -
        s.radius * s.radius ∧
    s.quadDisc ray =
      s.quadB ray * s.quadB ray - 4 * s.quadA ray * s.quadC ray ∧
    (s.quadDisc ray ≤ 0 → s.rayIntersects ray = -1) ∧
    (0 < s.quadDisc ray →
      s.rayIntersects ray =
        (-s.quadB ray - Real.sqrt (s.quadDisc ray)) / (2 * s.quadA ray)) :=
  ⟨rfl, rfl, rfl, rfl, s.rayIntersects_of_nonpos ray, s.rayIntersects_of_pos ray⟩

/-- Witness for C1: both branches of the intersection contract evaluated on
concrete inputs — an upward probe misses scene sphere 0 (`D = −45`), and the
axis probe hits it (`D = 3.64`) at the near root. -/
theorem rayIntersects_quadratic_spec_witness :
    (Sphere.mk (Vec3.mk 0 0.3 (-3.5)) 1 (Vec3.mk 1 0 0)).rayIntersects probeRayUp = -1 ∧
    (Sphere.mk (Vec3.mk 0 0.3 (-3.5)) 1 (Vec3.mk 1 0 0)).rayIntersects probeRayAxis =
      (-(Sphere.mk (Vec3.mk 0 0.3 (-3.5)) 1 (Vec3.mk 1 0 0)).quadB probeRayAxis -
          Real.sqrt ((Sphere.mk (Vec3.mk 0 0.3 (-3.5)) 1
            (Vec3.mk 1 0 0)).quadDisc probeRayAxis)) /
        (2 * (Sphere.mk (Vec3.mk 0 0.3 (-3.5)) 1 (Vec3.mk 1 0 0)).quadA probeRayAxis) := by
  constructor
  · exact (rayIntersects_quadratic_spec _ probeRayUp).2.2.2.2.1
      (by norm_num [Sphere.quadDisc, Sphere.quadA, Sphere.quadB, Sphere.quadC,
        Vec3.dot, Vec3.subtract, probeRayUp])
  · exact (rayIntersects_quadratic_spec _ probeRayAxis).2.2.2.2.2
      (by norm_num [Sphere.quadDisc, Sphere.quadA, Sphere.quadB, Sphere.quadC,
        Vec3.dot, Vec3.subtract, probeRayAxis])

/-- C2: the nearest-hit search scans the scene in order keeping only
candidates with `t > 0` that are strictly below the best so far; it either
reports the miss record `{t: -1}` when no sphere has a positive
intersection value, or returns the minimal positive intersection value,
the first sphere index attaining it (strictly better than every earlier
positive candidate, so ties go to the earlier index), and the unit normal
`normalise(hitPoint − center)`. -/
theorem traceRay_nearest_hit_spec (ray : Ray) :
    ((∀ k, k < spheres.length → ¬ 0 < tAt ray spheres k) ∧
      traceRay ray = CastResult.mk (-1) 0 (Vec3.mk 0 0 0)) ∨
    (∃ k, k < spheres.length ∧ 0 < tAt ray spheres k ∧
      traceRay ray =
        CastResult.mk (tAt ray spheres k) k
          ((ray.pointAt (tAt ray spheres k)).subtract
            (spheres.getD k defaultSphere).center).normalised ∧
      (∀ j, j < spheres.length → 0 < tAt ray spheres j →
        tAt ray spheres k ≤ tAt ray spheres j) ∧
      (∀ j, j < spheres.length → j < k → 0 < tAt ray spheres j →
        tAt ray spheres k < tAt ray spheres j)) :=
  traceRay_char ray

/-- Witness for C2: on the axis probe the search reports a hit with a
positive distance. -/
theorem traceRay_nearest_hit_spec_witness : 0 < (traceRay probeRayAxis).t := by
  rcases traceRay_nearest_hit_spec probeRayAxis with ⟨hall, _⟩ |
    ⟨k, hk, hpos, heq, _, _⟩
  · exfalso
    apply hall 0 (by rw [spheres_length]; norm_num)
    rw [show tAt probeRayAxis spheres 0 =
      (Sphere.mk (Vec3.mk 0 0.3 (-3.5)) 1 (Vec3.mk 1 0 0)).rayIntersects probeRayAxis
      from rfl, probe_axis_sphere0]
    exact probe_axis_t_pos
  · rw [heq]
    exact hpos

/-- C10: every trace result has either the sentinel `t = −1` or a positive
`t`; therefore the shader's miss test `t < 0` holds exactly on the
sentinel, and the sphere index stored in the result is always a valid
scene index. -/
theorem traceRay_wellformed_spec (ray : Ray) :
    ((traceRay ray).t = -1 ∨ 0 < (traceRay ray).t) ∧
    ((traceRay ray).t < 0 ↔ (traceRay ray).t = -1) ∧
    (traceRay ray).sphereIndex < spheres.length := by
  rcases traceRay_char ray with ⟨_, heq⟩ | ⟨k, hk, hpos, heq, _, _⟩
  · rw [heq]
    refine ⟨Or.inl rfl, ?_, ?_⟩
    · constructor
      · intro _; rfl
      · intro _; norm_num
    · rw [spheres_length]; norm_num
  · rw [heq]
    refine ⟨Or.inr hpos, ?_, hk⟩
    constructor
    · intro h
      exfalso
      exact absurd hpos (not_lt.2 (le_of_lt h))
    · intro h
      exfalso
      have h' : tAt ray spheres k = -1 := h
      rw [h'] at hpos
      exact absurd hpos (by norm_num)

/-- Witness for C10: the axis probe's trace result has a valid index. -/
theorem traceRay_wellformed_spec_witness :
    (traceRay probeRayAxis).sphereIndex < spheres.length :=
  (traceRay_wellformed_spec probeRayAxis).2.2

/-- C7: a ray cast from outside a sphere with unit direction aimed exactly
at the center intersects at `distance_to_center − radius`; a ray whose
whole line stays strictly outside the sphere returns the sentinel `−1`. -/
theorem rayIntersects_geometric_spec :
    (∀ (s : Sphere) (o : Vec3),
      0 < s.radius →
      s.radius < Real.sqrt ((o.subtract s.center).dot (o.subtract s.center)) →
      s.rayIntersects (Ray.mk o ((s.center.subtract o).scale
          (1 / Real.sqrt ((o.subtract s.center).dot (o.subtract s.center))))) =
        Real.sqrt ((o.subtract s.center).dot (o.subtract s.center)) - s.radius) ∧
    (∀ (s : Sphere) (ray : Ray),
      (∀ t : ℝ, s.radius * s.radius <
        ((ray.pointAt t).subtract s.center).dot ((ray.pointAt t).subtract s.center)) →
      s.rayIntersects ray = -1) := by
  constructor
  · intro s o hr hd
    have hoc : 0 ≤ (o.subtract s.center).dot (o.subtract s.center) :=
      Vec3.dot_self_nonneg _
    set d := Real.sqrt ((o.subtract s.center).dot (o.subtract s.center)) with hdd
    have hd0 : 0 < d := lt_trans hr hd
    have hd2 : d * d = (o.subtract s.center).dot (o.subtract s.center) :=
      Real.mul_self_sqrt hoc
    set ray := Ray.mk o ((s.center.subtract o).scale (1 / d)) with hray
    have hA : s.quadA ray = 1 := by
      show ray.direction.dot ray.direction = 1
      rw [hray]
      show ((s.center.subtract o).scale (1 / d)).dot
        ((s.center.subtract o).scale (1 / d)) = 1
      rw [Vec3.dot_scale_scale, Vec3.sub_dot_symm, ← hd2]
      field_simp
    have hB : s.quadB ray = -(2 * d) := by
      show 2 * ((ray.origin.subtract s.center).dot ray.direction) = -(2 * d)
      rw [hray]
      show 2 * ((o.subtract s.center).dot ((s.center.subtract o).scale (1 / d))) = -(2 * d)
      rw [Vec3.dot_scale_right, Vec3.dot_sub_rev, ← hd2]
      field_simp
      ring
    have hC : s.quadC ray = d * d - s.radius * s.radius := by
      show (ray.origin.subtract s.center).dot (ray.origin.subtract s.center) -
        s.radius * s.radius = d * d - s.radius * s.radius
      rw [hray, hd2]
    have hD : s.quadDisc ray = (2 * s.radius) * (2 * s.radius) := by
      show s.quadB ray * s.quadB ray - 4 * s.quadA ray * s.quadC ray = _
      rw [hA, hB, hC]
      ring
    have hDpos : 0 < s.quadDisc ray := by
      rw [hD]
      positivity
    rw [Sphere.rayIntersects_of_pos s ray hDpos, hD, hA, hB]
    rw [show (2 * s.radius) * (2 * s.radius) = (2 * s.radius) ^ 2 by ring,
      Real.sqrt_sq (by linarith)]
    field_simp
    ring
  · intro s ray h
    apply Sphere.rayIntersects_of_nonpos
    have h' : ∀ x : ℝ,
        0 ≤ s.quadA ray * (x * x) + s.quadB ray * x + s.quadC ray := by
      intro x
      have hx := h x
      rw [Sphere.point_dist_sq] at hx
      linarith
    have hle := discrim_le_zero h'
    simp only [discrim] at hle
    simp only [Sphere.quadDisc]
    nlinarith [hle]

/-- Witness for C7: the probe sphere at distance 3 straight ahead is hit at
`√9 − 1`, and the upward probe ray, staying outside it, misses. -/
theorem rayIntersects_geometric_spec_witness :
    probeSphere.rayIntersects (Ray.mk (Vec3.mk 0 0 0)
        ((probeSphere.center.subtract (Vec3.mk 0 0 0)).scale
          (1 / Real.sqrt (((Vec3.mk 0 0 0).subtract probeSphere.center).dot
            ((Vec3.mk 0 0 0).subtract probeSphere.center))))) =
      Real.sqrt (((Vec3.mk 0 0 0).subtract probeSphere.center).dot
        ((Vec3.mk 0 0 0).subtract probeSphere.center)) - probeSphere.radius ∧
    probeSphere.rayIntersects probeRayUp = -1 := by
  have h9 : ((Vec3.mk 0 0 0).subtract probeSphere.center).dot
      ((Vec3.mk 0 0 0).subtract probeSphere.center) = 9 := by
    norm_num [probeSphere, Vec3.subtract, Vec3.dot]
  constructor
  · apply rayIntersects_geometric_spec.1 probeSphere (Vec3.mk 0 0 0)
    · norm_num [probeSphere]
    · rw [h9, show (9 : ℝ) = 3 ^ 2 by norm_num, Real.sqrt_sq (by norm_num)]
      norm_num [probeSphere]
  · apply rayIntersects_geometric_spec.2 probeSphere probeRayUp
    intro t
    have : probeSphere.radius * probeSphere.radius = 1 := by
      norm_num [probeSphere]
    rw [this]
    norm_num [probeSphere, probeRayUp, Ray.pointAt, Vec3.subtract, Vec3.dot]
    nlinarith

/-- On a hit, the shader matches the spec-side shading pipeline. -/
theorem rayColor_hit_eq (ray : Ray) (h : 0 ≤ (traceRay ray).t) :
    rayColor ray = specShadedColor ray := by
  simp only [rayColor, specShadedColor, diffuseLighting, specularLighting]
  rw [if_neg (not_lt.2 h)]

/-- C3: for every ray that hits, the shader accumulates
`albedo·diffuse + albedo·specular`, multiplies by `0.4` exactly when the
shadow ray cast from the hit point offset by `0.01` along the normal in
the direction opposite the light hits anything (`t > 0`), and only after
that multiplies by `1.2` exactly when the hit sphere is scene index 2 —
so a shadowed hit on sphere 2 yields `(base)·0.4·1.2`. The right-hand
side `specShadedColor` is the spec's pipeline written out in that order. -/
theorem rayColor_hit_pipeline_spec (ray : Ray) (h : 0 ≤ (traceRay ray).t) :
    rayColor ray = specShadedColor ray :=
  rayColor_hit_eq ray h

/-- Witness for C3: the axis probe hits, and its shaded color follows the
spec pipeline. -/
theorem rayColor_hit_pipeline_spec_witness :
    0 ≤ (traceRay probeRayAxis).t ∧
    rayColor probeRayAxis = specShadedColor probeRayAxis := by
  have ht : 0 ≤ (traceRay probeRayAxis).t := by
    rw [traceRay_probe_axis]
    exact le_of_lt probe_axis_t_pos
  exact ⟨ht, rayColor_hit_pipeline_spec probeRayAxis ht⟩

/-- C4: the specular scalar is
`max(dot(reflection, viewDirection), 0)^7 · 0.8` for
`reflection = normal·(2·dot(normal, lightDirection)) − lightDirection`,
and in the shader it is added scaled by the sphere's albedo (the
`albedo.scale specular` summand of `specShadedColor`), not by white. -/
theorem specular_albedo_spec :
    (∀ normal viewDirection : Vec3,
      specularLighting normal viewDirection =
        max (((normal.scale (2 * normal.dot lightDirection)).subtract
          lightDirection).dot viewDirection) 0 ^ 7 * 0.8) ∧
    (∀ ray : Ray, 0 ≤ (traceRay ray).t → rayColor ray = specShadedColor ray) :=
  ⟨fun _ _ => rfl, rayColor_hit_eq⟩

/-- Witness for C4: the specular formula at concrete vectors, and the
albedo-scaled pipeline on the axis probe. -/
theorem specular_albedo_spec_witness :
    specularLighting (Vec3.mk 1 0 0) (Vec3.mk 0 1 0) =
      max ((((Vec3.mk 1 0 0).scale (2 * (Vec3.mk 1 0 0).dot lightDirection)).subtract
        lightDirection).dot (Vec3.mk 0 1 0)) 0 ^ 7 * 0.8 ∧
    rayColor probeRayAxis = specShadedColor probeRayAxis := by
  refine ⟨specular_albedo_spec.1 _ _, specular_albedo_spec.2 probeRayAxis ?_⟩
  rw [traceRay_probe_axis]
  exact le_of_lt probe_axis_t_pos

/-- C5: the miss color blends sky `(0.5, 0.9, 1.0)` and ground
`(0.3, 0.3, 0.5)` by `v = arccos(normalised(direction).y) / π`; straight
up gives exactly the sky color and straight down exactly the ground. -/
theorem background_gradient_spec :
    (∀ ray : Ray, backgroundColour ray =
      ((Vec3.mk 0.5 0.9 1.0).scale
        (1 - Real.arccos (ray.direction.normalised).y / Real.pi)).add
      ((Vec3.mk 0.3 0.3 0.5).scale
        (Real.arccos (ray.direction.normalised).y / Real.pi))) ∧
    (∀ o : Vec3,
      backgroundColour (Ray.mk o (Vec3.mk 0 1 0)) = Vec3.mk 0.5 0.9 1.0) ∧
    (∀ o : Vec3,
      backgroundColour (Ray.mk o (Vec3.mk 0 (-1) 0)) = Vec3.mk 0.3 0.3 0.5) := by
  refine ⟨fun ray => rfl, ?_, ?_⟩
  · intro o
    have hn : (Vec3.mk (0 : ℝ) 1 0).normalised = Vec3.mk 0 1 0 := by
      simp only [Vec3.normalised]
      rw [show (0 : ℝ) ^ 2 + 1 ^ 2 + 0 ^ 2 = 1 by norm_num, Real.sqrt_one]
      norm_num
    simp only [backgroundColour, hn]
    rw [Real.arccos_one]
    simp only [Vec3.scale, Vec3.add, Vec3.mk.injEq]
    norm_num
  · intro o
    have hn : (Vec3.mk (0 : ℝ) (-1) 0).normalised = Vec3.mk 0 (-1) 0 := by
      simp only [Vec3.normalised]
      rw [show (0 : ℝ) ^ 2 + (-1) ^ 2 + 0 ^ 2 = 1 by norm_num, Real.sqrt_one]
      norm_num
    simp only [backgroundColour, hn]
    rw [Real.arccos_neg_one, div_self Real.pi_ne_zero]
    simp only [Vec3.scale, Vec3.add, Vec3.mk.injEq]
    norm_num

/-- C9: the background color is a function of the latitude alone — two
rays whose normalised directions share the `y` component get the same
color, since the longitude `phi`/`u` never reaches the blend. -/
theorem background_latitude_only_spec (rayA rayB : Ray)
    (h : (rayA.direction.normalised).y = (rayB.direction.normalised).y) :
    backgroundColour rayA = backgroundColour rayB := by
  simp only [backgroundColour]
  rw [h]

/-- Witness for C9: a forward ray and a sideways ray share latitude 0 and
get the same background color. -/
theorem background_latitude_only_spec_witness :
    backgroundColour (Ray.mk (Vec3.mk 0 0 0) (Vec3.mk 0 0 1)) =
      backgroundColour (Ray.mk (Vec3.mk 0 0 0) (Vec3.mk 1 0 0)) := by
  apply background_latitude_only_spec
  simp only [Vec3.normalised]
  norm_num

/-- C8: non-positive frame dimensions give an empty delivery list. -/
theorem render_empty_frame_spec (W H : ℤ) (h : W ≤ 0 ∨ H ≤ 0) :
    render W H = [] := by
  have hflat : ∀ l : List ℕ,
      l.flatMap (fun _ => ([] : List (ℕ × ℕ × (ℝ × ℝ × ℝ)))) = [] := by
    intro l
    induction l with
    | nil => rfl
    | cons a l ih => rw [List.flatMap_cons, ih]; rfl
  rcases h with hW | hH
  · have hw0 : W.toNat = 0 := Int.toNat_of_nonpos hW
    simp only [render, hw0, List.range_zero, List.map_nil]
    exact hflat _
  · have hh0 : H.toNat = 0 := Int.toNat_of_nonpos hH
    simp only [render, hh0, List.range_zero]
    rfl

/-- Witness for C8: a frame with width −1 delivers nothing. -/
theorem render_empty_frame_spec_witness : render (-1) 5 = [] :=
  render_empty_frame_spec (-1) 5 (Or.inl (by norm_num))

/-- Channel clamping lands in `[0, 255]`. -/
theorem clamp_channel_bounds (c : ℝ) :
    0 ≤ min 1 (max 0 c) * 255 ∧ min 1 (max 0 c) * 255 ≤ 255 := by
  constructor
  · apply mul_nonneg _ (by norm_num)
    exact le_min (by norm_num) (le_max_left 0 c)
  · nlinarith [min_le_left 1 (max 0 c)]

/-- C6 (amended): every pixel of the frame is delivered with channels
obtained by clamping the shader color to `[0,1]` and scaling by 255; the
channels are real numbers in `[0, 255]` — integer quantisation is left to
the external canvas, not performed by the renderer. -/
theorem renderPixel_range_spec (W H : ℤ) (x y : ℕ)
    (hx : (x : ℤ) < W) (hy : (y : ℤ) < H) :
    (x, y, renderPixel W H x y) ∈ render W H ∧
    renderPixel W H x y =
      (min 1 (max 0 (rayColor (cameraRay W H x y)).x) * 255,
        min 1 (max 0 (rayColor (cameraRay W H x y)).y) * 255,
        min 1 (max 0 (rayColor (cameraRay W H x y)).z) * 255) ∧
    0 ≤ (renderPixel W H x y).1 ∧ (renderPixel W H x y).1 ≤ 255 ∧
    0 ≤ (renderPixel W H x y).2.1 ∧ (renderPixel W H x y).2.1 ≤ 255 ∧
    0 ≤ (renderPixel W H x y).2.2 ∧ (renderPixel W H x y).2.2 ≤ 255 := by
  refine ⟨?_, rfl, (clamp_channel_bounds _).1, (clamp_channel_bounds _).2,
    (clamp_channel_bounds _).1, (clamp_channel_bounds _).2,
    (clamp_channel_bounds _).1, (clamp_channel_bounds _).2⟩
  simp only [render, List.mem_flatMap, List.mem_map]
  refine ⟨y, ?_, ⟨x, ?_, rfl⟩⟩
  · exact List.mem_range.2 (by omega)
  · exact List.mem_range.2 (by omega)

/-- Witness for C6: pixel (0,0) of a 1×1 frame is delivered, in range. -/
theorem renderPixel_range_spec_witness :
    (0, 0, renderPixel 1 1 0 0) ∈ render 1 1 ∧ 0 ≤ (renderPixel 1 1 0 0).1 := by
  have h := renderPixel_range_spec 1 1 0 0 (by norm_num) (by norm_num)
  exact ⟨h.1, h.2.2.1⟩

/-- The camera ray of pixel (0,1) in a 1×2 frame points down the left
diagonal. -/
theorem cameraRay_pixel01 :
    cameraRay 1 2 0 1 =
      Ray.mk (Vec3.mk 0 0 0) ((Vec3.mk (-1 : ℝ) 0 (-1)).normalised) := by
  simp only [cameraRay, viewportWidth, viewportHeight, focalLength]
  norm_num

/-- Normalising the diagonal direction gives the probe components. -/
theorem diag_normalised :
    (Vec3.mk (-1 : ℝ) 0 (-1)).normalised = probeRayDiag.direction := by
  have h2 : ((-1 : ℝ)) ^ 2 + 0 ^ 2 + (-1) ^ 2 = 2 := by norm_num
  simp only [Vec3.normalised, probeRayDiag, h2]
  simp only [Vec3.mk.injEq]
  constructor
  · rw [neg_div, one_div]
  constructor
  · exact zero_div _
  · rw [neg_div, one_div]

/-- Diagonal probe against scene sphere 0: negative discriminant. -/
theorem diag_sphere0 :
    (Sphere.mk (Vec3.mk 0 0.3 (-3.5)) 1 (Vec3.mk 1 0 0)).rayIntersects
      probeRayDiag = -1 := by
  apply Sphere.rayIntersects_of_nonpos
  have hs2 : Real.sqrt 2 * Real.sqrt 2 = 2 := Real.mul_self_sqrt (by norm_num)
  have hs0 : (0 : ℝ) < Real.sqrt 2 := Real.sqrt_pos.2 (by norm_num)
  have hsne : Real.sqrt 2 ≠ 0 := ne_of_gt hs0
  simp only [Sphere.quadDisc, Sphere.quadA, Sphere.quadB, Sphere.quadC,
    Vec3.dot, Vec3.subtract, probeRayDiag]
  field_simp
  nlinarith [hs2, hs0]

/-- Diagonal probe against scene sphere 1: negative discriminant. -/
theorem diag_sphere1 :
    (Sphere.mk (Vec3.mk 0 1 (-2.8)) 0.5 (Vec3.mk 0 0 1)).rayIntersects
      probeRayDiag = -1 := by
  apply Sphere.rayIntersects_of_nonpos
  have hs2 : Real.sqrt 2 * Real.sqrt 2 = 2 := Real.mul_self_sqrt (by norm_num)
  have hs0 : (0 : ℝ) < Real.sqrt 2 := Real.sqrt_pos.2 (by norm_num)
  have hsne : Real.sqrt 2 ≠ 0 := ne_of_gt hs0
  simp only [Sphere.quadDisc, Sphere.quadA, Sphere.quadB, Sphere.quadC,
    Vec3.dot, Vec3.subtract, probeRayDiag]
  field_simp
  nlinarith [hs2, hs0]

/-- Diagonal probe against scene sphere 2: negative discriminant. -/
theorem diag_sphere2 :
    (Sphere.mk (Vec3.mk 0 (-14) (-5)) 13
      (Vec3.mk (58 / 255) (240 / 255) (46 / 255))).rayIntersects
      probeRayDiag = -1 := by
  apply Sphere.rayIntersects_of_nonpos
  have hs2 : Real.sqrt 2 * Real.sqrt 2 = 2 := Real.mul_self_sqrt (by norm_num)
  have hs0 : (0 : ℝ) < Real.sqrt 2 := Real.sqrt_pos.2 (by norm_num)
  have hsne : Real.sqrt 2 ≠ 0 := ne_of_gt hs0
  simp only [Sphere.quadDisc, Sphere.quadA, Sphere.quadB, Sphere.quadC,
    Vec3.dot, Vec3.subtract, probeRayDiag]
  field_simp
  nlinarith [hs2, hs0]

/-- Tracing the diagonal probe misses the whole scene. -/
theorem traceRay_probe_diag :
    traceRay probeRayDiag = CastResult.mk (-1) 0 (Vec3.mk 0 0 0) := by
  have step0 := traceLoop_cons_neg probeRayDiag
    (Sphere.mk (Vec3.mk 0 0.3 (-3.5)) 1 (Vec3.mk 1 0 0))
    [Sphere.mk (Vec3.mk 0 1 (-2.8)) 0.5 (Vec3.mk 0 0 1),
     Sphere.mk (Vec3.mk 0 (-14) (-5)) 13
       (Vec3.mk (58 / 255) (240 / 255) (46 / 255))] 0 none
    (by rw [diag_sphere0]; intro hcon; linarith [hcon.1])
  have step1 := traceLoop_cons_neg probeRayDiag
    (Sphere.mk (Vec3.mk 0 1 (-2.8)) 0.5 (Vec3.mk 0 0 1))
    [Sphere.mk (Vec3.mk 0 (-14) (-5)) 13
      (Vec3.mk (58 / 255) (240 / 255) (46 / 255))] 1 none
    (by rw [diag_sphere1]; intro hcon; linarith [hcon.1])
  have step2 := traceLoop_cons_neg probeRayDiag
    (Sphere.mk (Vec3.mk 0 (-14) (-5)) 13
      (Vec3.mk (58 / 255) (240 / 255) (46 / 255))) [] 2 none
    (by rw [diag_sphere2]; intro hcon; linarith [hcon.1])
  have hloop : traceLoop probeRayDiag spheres 0 none = none := by
    show traceLoop probeRayDiag
      [Sphere.mk (Vec3.mk 0 0.3 (-3.5)) 1 (Vec3.mk 1 0 0),
       Sphere.mk (Vec3.mk 0 1 (-2.8)) 0.5 (Vec3.mk 0 0 1),
       Sphere.mk (Vec3.mk 0 (-14) (-5)) 13
         (Vec3.mk (58 / 255) (240 / 255) (46 / 255))] 0 none = none
    rw [step0, step1, step2, traceLoop_nil]
  simp only [traceRay, hloop]

/-- Background of the diagonal probe: latitude 0 gives the half blend. -/
theorem background_probe_diag :
    backgroundColour probeRayDiag = Vec3.mk 0.4 0.6 0.75 := by
  have hs2 : Real.sqrt 2 * Real.sqrt 2 = 2 := Real.mul_self_sqrt (by norm_num)
  have hs0 : (0 : ℝ) < Real.sqrt 2 := Real.sqrt_pos.2 (by norm_num)
  have hsne : Real.sqrt 2 ≠ 0 := ne_of_gt hs0
  have harg : (-(1 / Real.sqrt 2) : ℝ) ^ 2 + 0 ^ 2 + (-(1 / Real.sqrt 2)) ^ 2 = 1 := by
    field_simp
  have hn : probeRayDiag.direction.normalised = probeRayDiag.direction := by
    show (Vec3.mk (-(1 / Real.sqrt 2)) 0 (-(1 / Real.sqrt 2))).normalised =
      Vec3.mk (-(1 / Real.sqrt 2)) 0 (-(1 / Real.sqrt 2))
    simp only [Vec3.normalised, harg, Real.sqrt_one]
    norm_num
  simp only [backgroundColour, hn]
  rw [show probeRayDiag.direction.y = 0 from rfl, Real.arccos_zero]
  rw [show Real.pi / 2 / Real.pi = 1 / 2 from by field_simp [Real.pi_ne_zero]; ring]
  simp only [Vec3.scale, Vec3.add, Vec3.mk.injEq]
  norm_num

/-- The shader output at the diagonal probe. -/
theorem rayColor_probe_diag : rayColor probeRayDiag = Vec3.mk 0.4 0.6 0.75 := by
  simp only [rayColor, traceRay_probe_diag]
  rw [if_pos (by norm_num : (-1 : ℝ) < 0)]
  exact background_probe_diag

/-- C6 counterexample: the blue channel delivered for pixel (0,1) of a
1×2 frame equals 191.25, whose fractional part is 0.25 — the claim that
every delivered channel is an integer fails at this pixel (the code
clamps and scales but never rounds). -/
theorem renderPixel_not_integer_cx :
    (renderPixel 1 2 0 1).2.2 = 191.25 ∧
    Int.fract ((renderPixel 1 2 0 1).2.2) = 0.25 := by
  have hc : (renderPixel 1 2 0 1).2.2 = 191.25 := by
    show min 1 (max 0 (rayColor (cameraRay 1 2 0 1)).z) * 255 = 191.25
    rw [cameraRay_pixel01]
    rw [show Ray.mk (Vec3.mk 0 0 0) ((Vec3.mk (-1 : ℝ) 0 (-1)).normalised) =
      probeRayDiag from by rw [diag_normalised]; rfl]
    rw [rayColor_probe_diag]
    rw [show (Vec3.mk (0.4 : ℝ) 0.6 0.75).z = 0.75 from rfl]
    rw [max_eq_right (by norm_num), min_eq_right (by norm_num)]
    norm_num
  refine ⟨hc, ?_⟩
  rw [hc]
  rw [Int.fract]
  rw [show ⌊(191.25 : ℝ)⌋ = 191 from by
    apply Int.floor_eq_iff.2
    norm_num]
  norm_num

end
